import Mathlib

/-!
Verification of the lead-scraper core algorithms.

The definitions below are shallow embeddings of the JavaScript source:
`src/notion.js` (domain extraction, fuzzy matching, duplicate checking),
`src/google-places.js` (grid partitioning, paginated search, orchestrated
run) and `src/enrichment/contactWaterfall.js` (per-source contact
normalization).  JavaScript strings are Lean `String`s (manipulated via
their `List Char` data to keep everything kernel-computable), JavaScript
numbers appearing in scores are exact rationals `ℚ`, counters are `ℕ`, and
`null`/`undefined` fields are `Option`s.  A JavaScript value used in a
boolean position is "truthy" iff it is neither absent nor the empty string
(resp. nonzero for numbers); the helpers `strTruthy`, `jsOrStr`, `jsOrNat`
encode precisely the `x || y` idiom of the source.
-/

namespace LeadScraper

/-- Lowercasing of one character as done by `String.prototype.toLowerCase`
on the character ranges relevant to the source: ASCII letters and the
Latin-1 uppercase letters U+00C0–U+00DE (except the multiplication sign
U+00D7) map down by 0x20; everything else is left unchanged. -/
def jsToLower (c : Char) : Char :=
  if 'A' ≤ c ∧ c ≤ 'Z' then Char.ofNat (c.toNat + 32)
  else if 0xC0 ≤ c.toNat ∧ c.toNat ≤ 0xDE ∧ c.toNat ≠ 0xD7 then Char.ofNat (c.toNat + 32)
  else c

/-- Characters kept by the normalizer regex `[^a-z0-9À-ſ]` of
`fuzzyMatch` (src/notion.js line 39). -/
def keepChar (c : Char) : Bool :=
  ('a' ≤ c && c ≤ 'z') || ('0' ≤ c && c ≤ '9') ||
    (0xC0 ≤ c.toNat && c.toNat ≤ 0x17F)

/-- JavaScript `String.prototype.trim` on a character list. -/
def trimChars (l : List Char) : List Char :=
  ((l.dropWhile (·.isWhitespace)).reverse.dropWhile (·.isWhitespace)).reverse

/-- The `normalize` closure of `fuzzyMatch` (src/notion.js lines 38-40):
lowercase, strip everything but letters, digits and accented letters, trim. -/
def normalize (s : String) : List Char :=
  trimChars ((s.data.map jsToLower).filter keepChar)

/-- JavaScript `haystack.includes(needle)`: `needle` occurs contiguously in
`haystack`. -/
def isSubstringOf (needle : List Char) : List Char → Bool
  | [] => needle.isEmpty
  | c :: cs => needle.isPrefixOf (c :: cs) || isSubstringOf needle cs

/-- Value `dp[i][j]` of the Levenshtein table of `levenshtein` in
src/notion.js (lines 60-77): the edit distance between the length-`i`
prefix of `s1` and the length-`j` prefix of `s2`, defined by the exact
recurrence the nested loops fill in (`dp[i][0] = i`, `dp[0][j] = j`, and
for `i,j ≥ 1` either `dp[i-1][j-1]` on equal characters or
`1 + min(dp[i-1][j], dp[i][j-1], dp[i-1][j-1])`). -/
def levTable (s1 s2 : List Char) : Nat → Nat → Nat
  | 0, j => j
  | i+1, 0 => i+1
  | i+1, j+1 =>
    if s1.getD i 'a' = s2.getD j 'a' then levTable s1 s2 i j
    else 1 + min (levTable s1 s2 i (j+1)) (min (levTable s1 s2 (i+1) j) (levTable s1 s2 i j))
termination_by i j => i + j

/-- The value `levenshtein(s1, s2)` of src/notion.js: the bottom-right
entry `dp[m][n]` of the table. -/
def levenshtein (s1 s2 : List Char) : Nat :=
  levTable s1 s2 s1.length s2.length

/-- The scoring logic of `fuzzyMatch` on the two already-normalized
strings (src/notion.js lines 45-57): equality scores 1, a substantial
substring relation scores 0.85, otherwise the Levenshtein-based ratio
`(longer.length - editDistance) / longer.length`. -/
def fuzzyCore (s1 s2 : List Char) : ℚ :=
  if s1 = s2 then 1
  else
    if 5 ≤ (if s1.length < s2.length then s1 else s2).length ∧
        (isSubstringOf s2 s1 ∨ isSubstringOf s1 s2) then 0.85
    else
      if (if s2.length < s1.length then s1 else s2).length = 0 then 1
      else (((if s2.length < s1.length then s1 else s2).length : ℚ) - (levenshtein s1 s2 : ℚ)) /
        ((if s2.length < s1.length then s1 else s2).length : ℚ)

/-- The fuzzy business-name similarity `fuzzyMatch` of src/notion.js
(lines 35-58), returning an exact rational: falsy inputs score 0,
otherwise both strings are normalized and scored by `fuzzyCore`. -/
def fuzzyMatch (a b : String) : ℚ :=
  if a = "" ∨ b = "" then 0 else fuzzyCore (normalize a) (normalize b)

/-- JavaScript truthiness of a nullable string. -/
def strTruthy : Option String → Bool
  | none => false
  | some s => s ≠ ""

/-- Strip the scheme prefix, regex `^https?:\/\//` of `extractDomain`. -/
def stripScheme (l : List Char) : List Char :=
  if "https://".data.isPrefixOf l then l.drop 8
  else if "http://".data.isPrefixOf l then l.drop 7
  else l

/-- Strip a leading `www.`, regex `^www\./` of `extractDomain`. -/
def stripWww (l : List Char) : List Char :=
  if "www.".data.isPrefixOf l then l.drop 4 else l

/-- The `extractDomain` function of src/notion.js (lines 14-27): strip
scheme, strip leading `www.`, take the segment before the first `/`,
lowercase, trim; empty results (and absent input) become `none`. -/
def extractDomain (url : Option String) : Option String :=
  match url with
  | none => none
  | some u =>
    if u = "" then none
    else
      let d := trimChars (((stripWww (stripScheme u.data)).takeWhile (· ≠ '/')).map jsToLower)
      if d = [] then none else some (String.mk d)

/-- A parsed Notion directory contact as produced by `parseNotionContact`
(src/notion.js lines 153-211); only the fields consulted by
`buildDomainIndex` and `checkDuplicate` are carried. -/
structure NotionContact where
  pageId : String
  fullName : String
  email : Option String
  organizaceUrl : Option String
  domain : Option String
deriving DecidableEq, Repr

/-- A lead as consumed by `checkDuplicate`: its display name and site URL. -/
structure Lead where
  name : Option String
  website : Option String
deriving DecidableEq, Repr

/-- The `buildDomainIndex` function of src/notion.js (lines 218-230) viewed
through `Map.get`: the bucket stored under key `d` is the ordered list of
contacts whose (truthy) derived domain equals `d`; `none` models
`Map.has(d) = false`. -/
def buildDomainIndex (contacts : List NotionContact) : String → Option (List NotionContact) :=
  fun d =>
    let bucket := contacts.filter (fun c => strTruthy c.domain && c.domain == some d)
    if bucket = [] then none else some bucket

/-- One entry of `result.matches` in `checkDuplicate`: identifying fields of
the matched contact, plus the fuzzy score when (and only when) the entry
came from the fuzzy branch. -/
structure MatchEntry where
  pageId : String
  name : String
  email : Option String
  organizaceUrl : Option String
  score : Option ℚ
deriving DecidableEq, Repr

/-- The duplicate verdict object of `checkDuplicate`. -/
structure Verdict where
  isDupe : Bool
  matchType : Option String
  «matches» : List MatchEntry
  confidence : ℚ
deriving DecidableEq, Repr

/-- The freshly initialised `result` object of `checkDuplicate`
(src/notion.js lines 241-246). -/
def baseVerdict : Verdict :=
  { isDupe := false, matchType := none, «matches» := [], confidence := 0 }

/-- The organization token a contact is fuzzy-matched on (src/notion.js
lines 274-276): the first dot-separated label of the domain derived from
the contact's organization URL. -/
def orgToken (c : NotionContact) : Option String :=
  (extractDomain c.organizaceUrl).map (fun d => String.mk (d.data.takeWhile (· ≠ '.')))

/-- The body of the per-contact fuzzy loop of `checkDuplicate`
(src/notion.js lines 269-288): `none` models `continue`. -/
def fuzzyCandidate (leadName : String) (c : NotionContact) : Option (NotionContact × ℚ) :=
  if strTruthy c.organizaceUrl then
    match orgToken c with
    | some o =>
      if o ≠ "" ∧ 3 ≤ o.length then
        let orgScore := fuzzyMatch leadName o
        if (0.85 : ℚ) ≤ orgScore then some (c, orgScore) else none
      else none
    | none => none
  else none

/-- Stable insertion of one element into a list sorted by `le`, keeping the
inserted (later-indexed) element after existing `le`-ties. -/
def insertStable (le : NotionContact × ℚ → NotionContact × ℚ → Bool) (x : NotionContact × ℚ) :
    List (NotionContact × ℚ) → List (NotionContact × ℚ)
  | [] => [x]
  | y :: ys => if le x y then x :: y :: ys else y :: insertStable le x ys

/-- Stable sort used to model `fuzzyMatches.sort((a, b) => b.score - a.score)`
(src/notion.js line 292): JavaScript `Array.prototype.sort` is stable, and a
stable sort of a list by the total comparator order is computed uniquely by
stable insertion sort. -/
def sortDescBy (le : NotionContact × ℚ → NotionContact × ℚ → Bool) :
    List (NotionContact × ℚ) → List (NotionContact × ℚ)
  | [] => []
  | x :: xs => insertStable le x (sortDescBy le xs)

/-- Descending-by-score order of the fuzzy comparator. -/
def scoreGe (x y : NotionContact × ℚ) : Bool := y.2 ≤ x.2

/-- Step 2 of `checkDuplicate` (src/notion.js lines 263-305): the fuzzy
fallback over all contacts, reached only when the exact-domain step did not
hit. -/
def fuzzyStep (lead : Lead) (allContacts : List NotionContact) : Verdict :=
  match lead.name with
  | none => baseVerdict
  | some nm =>
    if nm = "" then baseVerdict
    else
      let fuzzyMatches := allContacts.filterMap (fuzzyCandidate nm)
      if fuzzyMatches = [] then baseVerdict
      else
        let sorted := sortDescBy scoreGe fuzzyMatches
        { isDupe := true, matchType := some "fuzzy_name",
          «matches» := (sorted.take 3).map (fun m =>
            { pageId := m.1.pageId, name := m.1.fullName, email := m.1.email,
              organizaceUrl := m.1.organizaceUrl, score := some m.2 }),
          confidence := (sorted.headD (⟨"", "", none, none, none⟩, 0)).2 }

/-- The `checkDuplicate` function of src/notion.js (lines 239-308). -/
def checkDuplicate (lead : Lead) (domainIndex : String → Option (List NotionContact))
    (allContacts : List NotionContact) : Verdict :=
  match extractDomain lead.website with
  | some leadDomain =>
    if leadDomain = "" then fuzzyStep lead allContacts
    else
      match domainIndex leadDomain with
      | some domainMatches =>
        { isDupe := true, matchType := some "domain",
          «matches» := domainMatches.map (fun c =>
            { pageId := c.pageId, name := c.fullName, email := c.email,
              organizaceUrl := c.organizaceUrl, score := none }),
          confidence := 0.95 }
      | none => fuzzyStep lead allContacts
  | none => fuzzyStep lead allContacts

/-- A rectangular geographic bound (src/google-places.js `geocodeLocation`
result shape); coordinates are exact rationals. -/
structure GeoBounds where
  north : ℚ
  south : ℚ
  east : ℚ
  west : ℚ
deriving DecidableEq, Repr

/-- One grid cell pushed by `generateGrid` (src/google-places.js
lines 71-76), fields in source order. -/
structure GridCell where
  south : ℚ
  north : ℚ
  west : ℚ
  east : ℚ
deriving DecidableEq, Repr

/-- The `generateGrid` function of src/google-places.js (lines 64-81):
row-major `gridSize × gridSize` cells with linearly interpolated edges. -/
def generateGrid (bounds : GeoBounds) (gridSize : Nat) : List GridCell :=
  let latStep := (bounds.north - bounds.south) / gridSize
  let lngStep := (bounds.east - bounds.west) / gridSize
  (List.range gridSize).flatMap (fun (i : Nat) =>
    (List.range gridSize).map (fun (j : Nat) =>
      { south := bounds.south + (i : ℚ) * latStep,
        north := bounds.south + ((i : ℚ) + 1) * latStep,
        west := bounds.west + (j : ℚ) * lngStep,
        east := bounds.west + ((j : ℚ) + 1) * lngStep }))

/-- The area of a grid cell / bound, used to state the exact-tiling
property. -/
def cellArea (c : GridCell) : ℚ := (c.north - c.south) * (c.east - c.west)

/-- The `GRID_SIZES` lookup table of src/google-places.js (lines 27-31). -/
def gridSizes (g : String) : Option Nat :=
  if g = "small" then some 2
  else if g = "medium" then some 3
  else if g = "large" then some 5
  else none

/-- The expression `GRID_SIZES[gridSize] || GRID_SIZES.medium` in
`runSearch` (src/google-places.js line 175); the table values are nonzero,
so `||` is `getD`. -/
def gridNum (gridSize : String) : Nat := (gridSizes gridSize).getD 3

/-- A raw place returned by the Places API; only the fields `searchPlaces`
and `transformPlace` inspect for identity and linking are modelled, the
remaining descriptive fields being opaque to every property proved here. -/
structure Place where
  id : String
  displayName : Option String
  websiteUri : Option String
deriving DecidableEq, Repr

/-- The lead record built by `transformPlace` (src/google-places.js
lines 153-172), restricted to the modelled fields; `x || null` collapses an
empty string to `none`. -/
structure LeadRecord where
  place_id : String
  name : Option String
  website : Option String
deriving DecidableEq, Repr

/-- JavaScript `x || null` on a nullable string. -/
def orNullStr (x : Option String) : Option String :=
  match x with
  | some s => if s = "" then none else some s
  | none => none

/-- The `transformPlace` function of src/google-places.js on the modelled
fields. -/
def transformPlace (p : Place) : LeadRecord :=
  { place_id := p.id, name := orNullStr p.displayName, website := orNullStr p.websiteUri }

/-- One page payload of the Places text-search response: the (possibly
absent, here empty) `places` array and the optional `nextPageToken`. -/
structure PageData where
  places : List Place
  nextPageToken : Option String
deriving DecidableEq, Repr

instance {ε α : Type} [DecidableEq ε] [DecidableEq α] : DecidableEq (Except ε α) := fun a b =>
  match a, b with
  | .error x, .error y =>
    if h : x = y then .isTrue (by rw [h]) else .isFalse (fun he => h (by cases he; rfl))
  | .ok x, .ok y =>
    if h : x = y then .isTrue (by rw [h]) else .isFalse (fun he => h (by cases he; rfl))
  | .error _, .ok _ => .isFalse (fun he => by cases he)
  | .ok _, .error _ => .isFalse (fun he => by cases he)

/-- The environment's answer to one page fetch: `Except.error` models a
non-ok HTTP response (which `searchPlaces` turns into a thrown error). -/
abbrev PageResponse : Type := Except String PageData

/-- Result state of one `searchPlaces` call: the returned records (or the
thrown error), together with the final contents of the mutated
`existingPlaceIds` set and of the API-usage counter. -/
structure SPResult where
  result : Except String (List LeadRecord)
  seen : List String
  usage : Nat
deriving DecidableEq

/-- The inner `for (const place of data.places)` loop of `searchPlaces`
(src/google-places.js lines 124-134): skip a place whose id is already in
the seen set, otherwise append its transform and add its id. -/
def processPlaces : List Place → List String → List LeadRecord → List LeadRecord × List String
  | [], seen, acc => (acc, seen)
  | p :: ps, seen, acc =>
    if p.id ∈ seen then processPlaces ps seen acc
    else processPlaces ps (p.id :: seen) (acc ++ [transformPlace p])

/-- The do/while pagination loop of `searchPlaces` (src/google-places.js
lines 88-148): each iteration consumes the next scripted response,
increments the usage counter, throws on a non-ok response (discarding the
accumulator), merges the page otherwise, and continues while a truthy
`nextPageToken` exists and fewer than 3 pages were fetched.  An exhausted
script models the fetch itself failing. -/
def searchPlacesGo : List PageResponse → List String → Nat → List LeadRecord → Nat → SPResult
  | [], seen, usage, _, _ => ⟨.error "fetch failed", seen, usage⟩
  | r :: rest, seen, usage, acc, pageNum =>
    let usage' := usage + 1
    match r with
    | .error e => ⟨.error e, seen, usage'⟩
    | .ok page =>
      let step := processPlaces page.places seen acc
      let pageNum' := pageNum + 1
      match page.nextPageToken with
      | some tok =>
        if tok ≠ "" ∧ pageNum' < 3 then searchPlacesGo rest step.2 usage' step.1 pageNum'
        else ⟨.ok step.1, step.2, usage'⟩
      | none => ⟨.ok step.1, step.2, usage'⟩

/-- The `searchPlaces` function of src/google-places.js (lines 83-151),
with the scripted page responses standing for the external API. -/
def searchPlaces (responses : List PageResponse) (seen : List String) (usage : Nat) : SPResult :=
  searchPlacesGo responses seen usage [] 0

/-- The `db.upsertCompany` loop body of `runSearch` (src/google-places.js
lines 212-216): returns the number of new records and the grown company-id
set; every record counts toward `totalResults`, only unseen ids toward
`newResults`. -/
def upsertAll : List LeadRecord → List String → Nat × List String
  | [], comps => (0, comps)
  | r :: rs, comps =>
    let isNew := r.place_id ∉ comps
    let rec_ := upsertAll rs (if isNew then r.place_id :: comps else comps)
    (rec_.1 + (if isNew then 1 else 0), rec_.2)

/-- Observable events of one orchestrated run: the progress emission at the
start of each cell, the `limit_reached` emission (carrying the number of
cells completed, as in `API limit reached after i cells`), and the final
`completed` status write. -/
inductive REvent where
  | cellStart (idx : Nat)
  | limitReached (cellsDone : Nat)
  | completed
deriving DecidableEq, Repr

/-- Outcome of a run: the terminal status written by
`db.updateSearchStatus`, the two tallies returned by `runSearch`, and the
chronological event trace, each event paired with the usage-counter value
at the moment it was emitted. -/
structure Outcome where
  status : String
  totalResults : Nat
  newResults : Nat
  events : List (REvent × Nat)
deriving DecidableEq, Repr

/-- The per-cell loop of `runSearch` (src/google-places.js lines 198-232):
before each cell the usage counter is checked against the limit (break and
report on exhaustion); otherwise the cell's pages are collected, an
in-loop error is caught and skipped, and the loop continues; after the
loop the search is marked `completed`. -/
def runLoop : List (List PageResponse) → Nat → Nat → List String → List String →
    Nat → Nat → Nat → Outcome
  | [], _, usage, _, _, _, tot, new =>
    { status := "completed", totalResults := tot, newResults := new,
      events := [(.completed, usage)] }
  | s :: rest, limit, usage, seen, comps, i, tot, new =>
    if limit ≤ usage then
      { status := "completed", totalResults := tot, newResults := new,
        events := [(.limitReached i, usage), (.completed, usage)] }
    else
      let sp := searchPlaces s seen usage
      match sp.result with
      | .ok places =>
        let up := upsertAll places comps
        let o := runLoop rest limit sp.usage sp.seen up.2 (i + 1) (tot + places.length) (new + up.1)
        { o with events := (.cellStart i, usage) :: o.events }
      | .error _ =>
        let o := runLoop rest limit sp.usage sp.seen comps (i + 1) tot new
        { o with events := (.cellStart i, usage) :: o.events }

/-- The `runSearch` function of src/google-places.js (lines 174-233): an
up-front usage check that throws `API limit reached`, one metered geocoding
call, grid generation via `gridNum`, then the per-cell loop.  `env i` is
the scripted sequence of page responses the external API would return for
cell `i`. -/
def runSearch (gridSize : String) (bounds : GeoBounds) (env : Nat → List PageResponse)
    (limit usage0 : Nat) (seen comps : List String) : Except String Outcome :=
  if limit ≤ usage0 then .error "API limit reached"
  else
    let cells := generateGrid bounds (gridNum gridSize)
    .ok (runLoop ((List.range cells.length).map env) limit (usage0 + 1) seen comps 0 0 0)

/-- Number of cell-start events in a trace. -/
def countStarts (evs : List (REvent × Nat)) : Nat :=
  (evs.filter (fun e => match e.1 with | .cellStart _ => true | _ => false)).length

/-- A raw contact candidate entering `normalizeContacts`
(src/enrichment/contactWaterfall.js lines 84-116): the union of the field
names the two source branches read, each nullable; `confidence` is a
nullable number. -/
structure RawContact where
  name : Option String
  fullName : Option String
  firstName : Option String
  lastName : Option String
  email : Option String
  phone : Option String
  role : Option String
  title : Option String
  position : Option String
  confidence : Option Nat
deriving DecidableEq, Repr

/-- The normalized contact shape produced by `normalizeContacts`. -/
structure NormContact where
  name : Option String
  firstName : Option String
  lastName : Option String
  email : Option String
  phone : Option String
  title : Option String
  source : String
  confidence : Nat
deriving DecidableEq, Repr

/-- Result of normalizing one candidate: the final `return contact;` branch
of `normalizeContacts` hands the raw shape back unchanged. -/
inductive NormResult where
  | norm (c : NormContact)
  | raw (c : RawContact)
deriving DecidableEq, Repr

/-- JavaScript `a || b` on nullable strings: an absent or empty `a` yields
`b`. -/
def jsOrStr (a b : Option String) : Option String :=
  match a with
  | some s => if s = "" then b else some s
  | none => b

/-- JavaScript `a || d` on a nullable number defaulted to the literal `d`:
absent and `0` are both falsy. -/
def jsOrNat (a : Option Nat) (d : Nat) : Nat :=
  match a with
  | some v => if v = 0 then d else v
  | none => d

/-- Whitespace-separated tokens of a string: the JavaScript
`fullName.trim().split(/\s+/)` with the empty-string artefact of an
all-whitespace input already folded into the `parts[0] || null` /
`parts.length > 1` uses below. -/
def fieldsAux : List Char → List Char → List (List Char)
  | [], acc => if acc = [] then [] else [acc.reverse]
  | c :: cs, acc =>
    if c.isWhitespace then
      (if acc = [] then fieldsAux cs [] else acc.reverse :: fieldsAux cs [])
    else fieldsAux cs (c :: acc)

/-- Token list of a name string. -/
def nameTokens (s : String) : List String := (fieldsAux s.data []).map String.mk

/-- The `extractFirstName` helper of src/enrichment/contactWaterfall.js
(lines 123-127). -/
def extractFirstName (fullName : Option String) : Option String :=
  match fullName with
  | none => none
  | some s => if s = "" then none else (nameTokens s).head?

/-- The `extractLastName` helper of src/enrichment/contactWaterfall.js
(lines 134-138). -/
def extractLastName (fullName : Option String) : Option String :=
  match fullName with
  | none => none
  | some s =>
    if s = "" then none
    else
      let parts := nameTokens s
      if 1 < parts.length then some (String.intercalate " " (parts.drop 1)) else none

/-- The Hunter-branch name fallback
`[contact.firstName, contact.lastName].filter(Boolean).join(' ')`. -/
def joinNames (f l : Option String) : String :=
  String.intercalate " " (([f, l].filterMap id).filter (fun s => s ≠ ""))

/-- Normalization of one candidate by `normalizeContacts`
(src/enrichment/contactWaterfall.js lines 84-116), by source tag. -/
def normalizeContact (source : String) (c : RawContact) : NormResult :=
  if source = "web_scrape" then
    .norm {
      name := jsOrStr c.name none,
      firstName := jsOrStr c.firstName (extractFirstName c.name),
      lastName := jsOrStr c.lastName (extractLastName c.name),
      email := jsOrStr c.email none,
      phone := jsOrStr c.phone none,
      title := jsOrStr c.role (jsOrStr c.title none),
      source := "web_scrape",
      confidence := jsOrNat c.confidence 50 }
  else if source = "hunter" then
    .norm {
      name := jsOrStr c.fullName (some (joinNames c.firstName c.lastName)),
      firstName := jsOrStr c.firstName none,
      lastName := jsOrStr c.lastName none,
      email := jsOrStr c.email none,
      phone := none,
      title := jsOrStr c.title (jsOrStr c.position none),
      source := "hunter",
      confidence := jsOrNat c.confidence 0 }
  else .raw c

/-- The `normalizeContacts` function of src/enrichment/contactWaterfall.js. -/
def normalizeContacts (contacts : List RawContact) (source : String) : List NormResult :=
  contacts.map (normalizeContact source)

/-- The confidence of a normalization result, when one was produced. -/
def confOf : NormResult → Option Nat
  | .norm c => some c.confidence
  | .raw _ => none

theorem length_if_lt_right (s1 s2 : List Char) :
    (if s2.length < s1.length then s1 else s2).length = max s1.length s2.length := by
  split_ifs with h <;> omega

theorem length_if_lt_left (s1 s2 : List Char) :
    (if s1.length < s2.length then s1 else s2).length = min s1.length s2.length := by
  split_ifs with h <;> omega

theorem levTable_symm_aux (s1 s2 : List Char) :
    ∀ n i j, i + j ≤ n → levTable s1 s2 i j = levTable s2 s1 j i := by
  intro n
  induction n with
  | zero =>
    intro i j h
    have hi : i = 0 := by omega
    have hj : j = 0 := by omega
    subst hi; subst hj; simp [levTable]
  | succ n ih =>
    intro i j h
    match i, j with
    | 0, 0 => simp [levTable]
    | 0, j + 1 => simp [levTable]
    | i + 1, 0 => simp [levTable]
    | i + 1, j + 1 =>
      have h1 := ih i j (by omega)
      have h2 := ih i (j + 1) (by omega)
      have h3 := ih (i + 1) j (by omega)
      simp only [levTable]
      by_cases hc : s1.getD i 'a' = s2.getD j 'a'
      · rw [if_pos hc, if_pos hc.symm, h1]
      · rw [if_neg hc, if_neg (fun he => hc he.symm), h1, h2, h3]
        omega

theorem levenshtein_symm (s1 s2 : List Char) : levenshtein s1 s2 = levenshtein s2 s1 :=
  levTable_symm_aux s1 s2 (s1.length + s2.length) s1.length s2.length le_rfl

theorem levTable_le_aux (s1 s2 : List Char) :
    ∀ n i j, i + j ≤ n → levTable s1 s2 i j ≤ max i j := by
  intro n
  induction n with
  | zero =>
    intro i j h
    have hi : i = 0 := by omega
    have hj : j = 0 := by omega
    subst hi; subst hj; simp [levTable]
  | succ n ih =>
    intro i j h
    match i, j with
    | 0, j => simp [levTable]
    | i + 1, 0 => simp [levTable]
    | i + 1, j + 1 =>
      have h1 := ih i j (by omega)
      simp only [levTable]
      by_cases hc : s1.getD i 'a' = s2.getD j 'a'
      · rw [if_pos hc]; omega
      · rw [if_neg hc]; omega

theorem levenshtein_le_max (s1 s2 : List Char) :
    levenshtein s1 s2 ≤ max s1.length s2.length :=
  levTable_le_aux s1 s2 (s1.length + s2.length) s1.length s2.length le_rfl

theorem fuzzyCore_symm (s1 s2 : List Char) : fuzzyCore s1 s2 = fuzzyCore s2 s1 := by
  unfold fuzzyCore
  by_cases h12 : s1 = s2
  · rw [if_pos h12, if_pos h12.symm]
  · rw [if_neg h12, if_neg (show ¬(s2 = s1) from fun he => h12 he.symm)]
    have hshort : (if s1.length < s2.length then s1 else s2).length =
        (if s2.length < s1.length then s2 else s1).length := by
      rw [length_if_lt_left, length_if_lt_left s2 s1]; omega
    by_cases hc : 5 ≤ (if s1.length < s2.length then s1 else s2).length ∧
        (isSubstringOf s2 s1 = true ∨ isSubstringOf s1 s2 = true)
    · rw [if_pos hc, if_pos (show 5 ≤ (if s2.length < s1.length then s2 else s1).length ∧
          (isSubstringOf s1 s2 = true ∨ isSubstringOf s2 s1 = true) from
        ⟨by rw [← hshort]; exact hc.1, hc.2.symm⟩)]
    · have hlong : (if s2.length < s1.length then s1 else s2).length =
          (if s1.length < s2.length then s2 else s1).length := by
        rw [length_if_lt_right, length_if_lt_right s2 s1]; omega
      rw [if_neg hc,
        if_neg (show ¬(5 ≤ (if s2.length < s1.length then s2 else s1).length ∧
            (isSubstringOf s1 s2 = true ∨ isSubstringOf s2 s1 = true)) from
          fun hc' => hc ⟨by rw [hshort]; exact hc'.1, hc'.2.symm⟩),
        hlong, levenshtein_symm s1 s2]

theorem fuzzyCore_bounds (s1 s2 : List Char) : 0 ≤ fuzzyCore s1 s2 ∧ fuzzyCore s1 s2 ≤ 1 := by
  unfold fuzzyCore
  by_cases h12 : s1 = s2
  · rw [if_pos h12]; norm_num
  · rw [if_neg h12]
    by_cases hsub : 5 ≤ (if s1.length < s2.length then s1 else s2).length ∧
        (isSubstringOf s2 s1 = true ∨ isSubstringOf s1 s2 = true)
    · rw [if_pos hsub]; norm_num
    · rw [if_neg hsub]
      by_cases hz : (if s2.length < s1.length then s1 else s2).length = 0
      · rw [if_pos hz]; norm_num
      · rw [if_neg hz]
        have hmax : (if s2.length < s1.length then s1 else s2).length =
            max s1.length s2.length := length_if_lt_right s1 s2
        have hLpos : 0 < ((if s2.length < s1.length then s1 else s2).length : ℚ) := by
          exact_mod_cast Nat.pos_of_ne_zero hz
        have hd : (levenshtein s1 s2 : ℚ) ≤
            ((if s2.length < s1.length then s1 else s2).length : ℚ) := by
          rw [hmax]; exact_mod_cast levenshtein_le_max s1 s2
        have hd0 : (0 : ℚ) ≤ (levenshtein s1 s2 : ℚ) := by positivity
        constructor
        · exact div_nonneg (by linarith) hLpos.le
        · rw [div_le_one hLpos]; linarith

/-- C8: `fuzzyMatch` is reflexive on non-empty strings (score exactly 1)
and symmetric in its two arguments, the latter resting on symmetry of the
Levenshtein table and of the substring rule. -/
theorem C8_fuzzyMatch_refl_and_symm :
    (∀ a : String, a ≠ "" → fuzzyMatch a a = 1) ∧
    (∀ a b : String, fuzzyMatch a b = fuzzyMatch b a) := by
  constructor
  · intro a ha
    unfold fuzzyMatch fuzzyCore
    rw [if_neg (by tauto), if_pos rfl]
  · intro a b
    unfold fuzzyMatch
    by_cases ha : a = ""
    · rw [if_pos (Or.inl ha), if_pos (Or.inr ha)]
    · by_cases hb : b = ""
      · rw [if_pos (Or.inr hb), if_pos (Or.inl hb)]
      · rw [if_neg (by tauto), if_neg (by tauto)]
        exact fuzzyCore_symm (normalize a) (normalize b)

/-- Witness for C8: reflexivity instantiated at the non-empty string
`"Acme"`, symmetry at a concrete pair. -/
theorem C8_fuzzyMatch_refl_and_symm_witness :
    ("Acme" ≠ "" ∧ fuzzyMatch "Acme" "Acme" = 1) ∧
    fuzzyMatch "ab" "ba" = fuzzyMatch "ba" "ab" :=
  ⟨⟨by decide, C8_fuzzyMatch_refl_and_symm.1 "Acme" (by decide)⟩,
   C8_fuzzyMatch_refl_and_symm.2 "ab" "ba"⟩

/-- C10: the Levenshtein distance never exceeds the length of the longer
normalized string, hence `fuzzyMatch` always lands in the closed interval
`[0, 1]` and the negative scores callers are told to guard against cannot
occur. -/
theorem C10_fuzzyMatch_in_unit_interval :
    (∀ s1 s2 : List Char, levenshtein s1 s2 ≤ max s1.length s2.length) ∧
    (∀ a b : String, 0 ≤ fuzzyMatch a b ∧ fuzzyMatch a b ≤ 1) := by
  refine ⟨levenshtein_le_max, ?_⟩
  intro a b
  unfold fuzzyMatch
  by_cases h : a = "" ∨ b = ""
  · rw [if_pos h]; norm_num
  · rw [if_neg h]; exact fuzzyCore_bounds (normalize a) (normalize b)

theorem flatMapRange_length {α : Type} (m : Nat) (f : Nat → Nat → α) (n : Nat) :
    ((List.range n).flatMap (fun i => (List.range m).map (f i))).length = n * m := by
  induction n with
  | zero => simp
  | succ n ih =>
    rw [List.range_succ, List.flatMap_append, List.length_append, ih]
    simp [Nat.succ_mul]

theorem flatMapRange_getElem {α : Type} (m : Nat) (f : Nat → Nat → α) :
    ∀ n i j, i < n → j < m →
      ((List.range n).flatMap (fun i => (List.range m).map (f i)))[i * m + j]? = some (f i j) := by
  intro n
  induction n with
  | zero => intro i j hi _; omega
  | succ n ih =>
    intro i j hi hj
    rw [List.range_succ, List.flatMap_append, List.getElem?_append]
    rcases Nat.lt_or_ge i n with h | h
    · rw [if_pos (by rw [flatMapRange_length]; calc i * m + j < i * m + m := by omega
        _ = (i + 1) * m := by ring
        _ ≤ n * m := Nat.mul_le_mul_right m (by omega))]
      exact ih i j h hj
    · have hin : i = n := by omega
      subst hin
      rw [if_neg (by rw [flatMapRange_length]; omega), flatMapRange_length]
      have hk : i * m + j - i * m = j := by omega
      rw [hk]
      simp [List.getElem?_map, List.getElem?_range hj]

theorem flatMap_const_replicate {α β : Type} (k : Nat) (x : α) :
    ∀ l : List β, l.flatMap (fun _ => List.replicate k x) = List.replicate (l.length * k) x := by
  intro l
  induction l with
  | nil => simp
  | cons b bs ih =>
    rw [List.flatMap_cons, ih, ← List.replicate_add]
    congr 1
    simp [Nat.succ_mul]
    omega

theorem generateGrid_length (b : GeoBounds) (n : Nat) : (generateGrid b n).length = n * n := by
  unfold generateGrid
  exact flatMapRange_length n _ n

theorem flatMap_congr_fun {α β : Type} (l : List α) (f g : α → List β)
    (h : ∀ a ∈ l, f a = g a) : l.flatMap f = l.flatMap g := by
  induction l with
  | nil => rfl
  | cons a as ih =>
    rw [List.flatMap_cons, List.flatMap_cons, h a (by simp),
      ih (fun x hx => h x (by simp [hx]))]

theorem map_eq_replicate_of_const {α β : Type} (l : List α) (f : α → β) (c : β)
    (h : ∀ a ∈ l, f a = c) : l.map f = List.replicate l.length c := by
  induction l with
  | nil => rfl
  | cons a as ih =>
    rw [List.map_cons, h a (by simp), List.length_cons, List.replicate_succ,
      ih (fun x hx => h x (by simp [hx]))]

theorem generateGrid_area_sum (b : GeoBounds) (n : Nat) (hn : n ≠ 0) :
    ((generateGrid b n).map cellArea).sum = (b.north - b.south) * (b.east - b.west) := by
  have hq : ((n : ℚ)) ≠ 0 := Nat.cast_ne_zero.mpr hn
  simp only [generateGrid]
  rw [List.map_flatMap]
  have hcong : ∀ i ∈ List.range n,
      List.map cellArea ((List.range n).map (fun (j : Nat) =>
        ({ south := b.south + (i : ℚ) * ((b.north - b.south) / n),
           north := b.south + ((i : ℚ) + 1) * ((b.north - b.south) / n),
           west := b.west + (j : ℚ) * ((b.east - b.west) / n),
           east := b.west + ((j : ℚ) + 1) * ((b.east - b.west) / n) } : GridCell))) =
      List.replicate n ((b.north - b.south) / n * ((b.east - b.west) / n)) := by
    intro i _
    rw [List.map_map]
    rw [map_eq_replicate_of_const (List.range n) _
      ((b.north - b.south) / n * ((b.east - b.west) / n)) ?_, List.length_range]
    intro j _
    simp only [Function.comp]
    unfold cellArea
    ring
  rw [flatMap_congr_fun _ _ _ hcong, flatMap_const_replicate, List.length_range,
    List.sum_replicate, nsmul_eq_mul]
  push_cast
  field_simp

/-- C4: for a valid bound and any supported granularity `n ∈ {2,3,5}`,
`generateGrid` yields exactly `n²` cells in row-major order, the cell at
row `i`, column `j` having the linearly interpolated edges with step
`(max - min) / n`, and under exact rational arithmetic the cell areas sum
to the area of the bound (no gaps or overlaps). -/
theorem C4_generateGrid_tiles (b : GeoBounds) (n : Nat)
    (hn : n = 2 ∨ n = 3 ∨ n = 5) (_hsn : b.south < b.north) (_hwe : b.west < b.east) :
    (generateGrid b n).length = n * n ∧
    (∀ i j : Nat, i < n → j < n →
      (generateGrid b n)[i * n + j]? = some
        { south := b.south + (i : ℚ) * ((b.north - b.south) / n),
          north := b.south + ((i : ℚ) + 1) * ((b.north - b.south) / n),
          west := b.west + (j : ℚ) * ((b.east - b.west) / n),
          east := b.west + ((j : ℚ) + 1) * ((b.east - b.west) / n) }) ∧
    ((generateGrid b n).map cellArea).sum = (b.north - b.south) * (b.east - b.west) := by
  have hn0 : n ≠ 0 := by rcases hn with h | h | h <;> omega
  refine ⟨generateGrid_length b n, ?_, generateGrid_area_sum b n hn0⟩
  intro i j hi hj
  simp only [generateGrid]
  exact flatMapRange_getElem n _ n i j hi hj

/-- Witness for C4: the unit square split 2×2 has 4 cells, its last cell is
the north-east quadrant, and the cell areas sum to the square's area. -/
theorem C4_generateGrid_tiles_witness :
    ((2 = 2 ∨ 2 = 3 ∨ 2 = 5) ∧ ((0 : ℚ) < 1) ∧ ((0 : ℚ) < 1)) ∧
    (generateGrid ⟨1, 0, 1, 0⟩ 2).length = 4 ∧
    (generateGrid ⟨1, 0, 1, 0⟩ 2)[3]? = some ⟨1/2, 1, 1/2, 1⟩ ∧
    ((generateGrid ⟨1, 0, 1, 0⟩ 2).map cellArea).sum = 1 := by
  have T := C4_generateGrid_tiles ⟨1, 0, 1, 0⟩ 2 (Or.inl rfl) (by norm_num) (by norm_num)
  refine ⟨⟨Or.inl rfl, by norm_num, by norm_num⟩, T.1, ?_, ?_⟩
  · have h := T.2.1 1 1 (by norm_num) (by norm_num)
    rw [show 1 * 2 + 1 = 3 from rfl] at h
    rw [h]
    simp only [Option.some.injEq, GridCell.mk.injEq]
    norm_num
  · rw [T.2.2]
    norm_num

theorem transformPlace_place_id (p : Place) : (transformPlace p).place_id = p.id := rfl

theorem processPlaces_spec :
    ∀ (places : List Place) (seen : List String) (acc : List LeadRecord),
      (∀ r ∈ acc, r.place_id ∈ seen) → ((acc.map (fun r => r.place_id)).Nodup) →
      (∀ x ∈ seen, x ∈ (processPlaces places seen acc).2) ∧
      (∀ r ∈ (processPlaces places seen acc).1, r.place_id ∈ (processPlaces places seen acc).2) ∧
      (((processPlaces places seen acc).1.map (fun r => r.place_id)).Nodup) ∧
      (∀ r ∈ (processPlaces places seen acc).1, r ∉ acc → r.place_id ∉ seen) := by
  intro places
  induction places with
  | nil =>
    intro seen acc h1 h2
    refine ⟨fun x hx => hx, h1, h2, ?_⟩
    intro r hr hra
    exact absurd hr hra
  | cons p ps ih =>
    intro seen acc h1 h2
    by_cases hmem : p.id ∈ seen
    · simp only [processPlaces, if_pos hmem]
      exact ih seen acc h1 h2
    · simp only [processPlaces, if_neg hmem]
      have h1' : ∀ r ∈ acc ++ [transformPlace p], r.place_id ∈ p.id :: seen := by
        intro r hr
        rcases List.mem_append.mp hr with h | h
        · exact List.mem_cons_of_mem _ (h1 r h)
        · rw [List.mem_singleton.mp h, transformPlace_place_id]
          exact List.mem_cons_self _ _
      have h2' : (((acc ++ [transformPlace p]).map (fun r => r.place_id)).Nodup) := by
        rw [List.map_append, List.nodup_append]
        refine ⟨h2, by simp, ?_⟩
        intro a ha
        rcases List.mem_map.mp ha with ⟨r, hr, hra⟩
        simp only [List.map_cons, List.map_nil, List.mem_singleton, transformPlace_place_id]
        intro hc
        exact hmem (hc ▸ hra ▸ h1 r hr)
      have IH := ih (p.id :: seen) (acc ++ [transformPlace p]) h1' h2'
      refine ⟨fun x hx => IH.1 x (List.mem_cons_of_mem _ hx), IH.2.1, IH.2.2.1, ?_⟩
      intro r hr hra
      by_cases hacc : r ∈ acc ++ [transformPlace p]
      · rcases List.mem_append.mp hacc with h | h
        · exact absurd h hra
        · rw [List.mem_singleton.mp h, transformPlace_place_id]
          exact hmem
      · intro hc
        exact IH.2.2.2 r hr hacc (List.mem_cons_of_mem _ hc)

theorem searchPlacesGo_spec :
    ∀ (responses : List PageResponse) (seen : List String) (usage : Nat)
      (acc : List LeadRecord) (pn : Nat),
      (∀ r ∈ acc, r.place_id ∈ seen) → ((acc.map (fun r => r.place_id)).Nodup) →
      (∀ x ∈ seen, x ∈ (searchPlacesGo responses seen usage acc pn).seen) ∧
      (∀ recs, (searchPlacesGo responses seen usage acc pn).result = .ok recs →
        (∀ r ∈ recs, r.place_id ∈ (searchPlacesGo responses seen usage acc pn).seen) ∧
        ((recs.map (fun r => r.place_id)).Nodup) ∧
        (∀ r ∈ recs, r ∉ acc → r.place_id ∉ seen)) := by
  intro responses
  induction responses with
  | nil =>
    intro seen usage acc pn _ _
    refine ⟨fun x hx => hx, ?_⟩
    intro recs h
    exact absurd h (by simp [searchPlacesGo])
  | cons r rest ih =>
    intro seen usage acc pn h1 h2
    cases r with
    | error e =>
      refine ⟨fun x hx => hx, ?_⟩
      intro recs h
      exact absurd h (by simp [searchPlacesGo])
    | ok page =>
      have PP := processPlaces_spec page.places seen acc h1 h2
      cases htok : page.nextPageToken with
      | some tok =>
        by_cases hcond : tok ≠ "" ∧ pn + 1 < 3
        · simp only [searchPlacesGo, htok, if_pos hcond]
          have IH := ih (processPlaces page.places seen acc).2 (usage + 1)
            (processPlaces page.places seen acc).1 (pn + 1) PP.2.1 PP.2.2.1
          refine ⟨fun x hx => IH.1 x (PP.1 x hx), ?_⟩
          intro recs h
          have IH2 := IH.2 recs h
          refine ⟨IH2.1, IH2.2.1, ?_⟩
          intro rc hrc hracc
          by_cases hin : rc ∈ (processPlaces page.places seen acc).1
          · exact PP.2.2.2 rc hin hracc
          · intro hc
            exact IH2.2.2 rc hrc hin (PP.1 _ hc)
        · simp only [searchPlacesGo, htok, if_neg hcond]
          refine ⟨fun x hx => PP.1 x hx, ?_⟩
          intro recs h
          cases h
          exact ⟨PP.2.1, PP.2.2.1, PP.2.2.2⟩
      | none =>
        simp only [searchPlacesGo, htok]
        refine ⟨fun x hx => PP.1 x hx, ?_⟩
        intro recs h
        cases h
        exact ⟨PP.2.1, PP.2.2.1, PP.2.2.2⟩

/-- C5: whatever the initial seen-id set and the scripted page sequence,
a successful `searchPlaces` run never returns a record whose identifier
was already seen when collection started, every returned identifier is in
the seen set when the collector returns, and the returned identifiers are
pairwise distinct. -/
theorem C5_searchPlaces_seen_invariant (responses : List PageResponse) (seen : List String)
    (usage : Nat) (recs : List LeadRecord)
    (h : (searchPlaces responses seen usage).result = .ok recs) :
    (∀ r ∈ recs, r.place_id ∉ seen) ∧
    (∀ r ∈ recs, r.place_id ∈ (searchPlaces responses seen usage).seen) ∧
    ((recs.map (fun r => r.place_id)).Nodup) := by
  have S := searchPlacesGo_spec responses seen usage [] 0 (by simp) (by simp)
  have S2 := S.2 recs h
  exact ⟨fun r hr => S2.2.2 r hr (by simp), S2.1, S2.2.1⟩

theorem countStarts_cons_cellStart (j u : Nat) (evs : List (REvent × Nat)) :
    countStarts ((REvent.cellStart j, u) :: evs) = countStarts evs + 1 := by
  simp [countStarts]

theorem runLoop_completed :
    ∀ (scripts : List (List PageResponse)) (limit usage : Nat) (seen comps : List String)
      (i tot new : Nat),
      (∃ l u, (runLoop scripts limit usage seen comps i tot new).events =
        l ++ [(REvent.completed, u)]) ∧
      (runLoop scripts limit usage seen comps i tot new).status = "completed" := by
  intro scripts
  induction scripts with
  | nil =>
    intro limit usage seen comps i tot new
    exact ⟨⟨[], usage, rfl⟩, rfl⟩
  | cons s rest ih =>
    intro limit usage seen comps i tot new
    by_cases hl : limit ≤ usage
    · simp only [runLoop, if_pos hl]
      exact ⟨⟨[(REvent.limitReached i, usage)], usage, rfl⟩, trivial⟩
    · simp only [runLoop, if_neg hl]
      cases hsp : (searchPlaces s seen usage).result with
      | ok places =>
        simp only [hsp]
        obtain ⟨⟨l, u, hev⟩, hst⟩ := ih limit (searchPlaces s seen usage).usage
          (searchPlaces s seen usage).seen (upsertAll places comps).2 (i + 1)
          (tot + places.length) (new + (upsertAll places comps).1)
        exact ⟨⟨(REvent.cellStart i, usage) :: l, u, by simp [hev]⟩, hst⟩
      | error e =>
        simp only [hsp]
        obtain ⟨⟨l, u, hev⟩, hst⟩ := ih limit (searchPlaces s seen usage).usage
          (searchPlaces s seen usage).seen comps (i + 1) tot new
        exact ⟨⟨(REvent.cellStart i, usage) :: l, u, by simp [hev]⟩, hst⟩

theorem runLoop_cellStart_budget :
    ∀ (scripts : List (List PageResponse)) (limit usage : Nat) (seen comps : List String)
      (i tot new k u : Nat),
      (REvent.cellStart k, u) ∈ (runLoop scripts limit usage seen comps i tot new).events →
      u < limit := by
  intro scripts
  induction scripts with
  | nil =>
    intro limit usage seen comps i tot new k u h
    simp [runLoop] at h
  | cons s rest ih =>
    intro limit usage seen comps i tot new k u h
    by_cases hl : limit ≤ usage
    · simp [runLoop, if_pos hl] at h
    · simp only [runLoop, if_neg hl] at h
      cases hsp : (searchPlaces s seen usage).result with
      | ok places =>
        rw [hsp] at h
        simp only [List.mem_cons] at h
        rcases h with h | h
        · have : u = usage := congrArg Prod.snd h
          omega
        · exact ih _ _ _ _ _ _ _ _ _ h
      | error e =>
        rw [hsp] at h
        simp only [List.mem_cons] at h
        rcases h with h | h
        · have : u = usage := congrArg Prod.snd h
          omega
        · exact ih _ _ _ _ _ _ _ _ _ h

theorem runLoop_limitReached_count :
    ∀ (scripts : List (List PageResponse)) (limit usage : Nat) (seen comps : List String)
      (i tot new k u : Nat),
      (REvent.limitReached k, u) ∈ (runLoop scripts limit usage seen comps i tot new).events →
      k = i + countStarts (runLoop scripts limit usage seen comps i tot new).events := by
  intro scripts
  induction scripts with
  | nil =>
    intro limit usage seen comps i tot new k u h
    simp [runLoop] at h
  | cons s rest ih =>
    intro limit usage seen comps i tot new k u h
    by_cases hl : limit ≤ usage
    · simp only [runLoop, if_pos hl] at h ⊢
      simp only [List.mem_cons, List.mem_singleton] at h
      rcases h with h | h | h
      · have : k = i := by
          have := congrArg Prod.fst h
          simpa using this
        simp [countStarts, this]
      · exact absurd (congrArg Prod.fst h) (by simp)
      · exact absurd h (by simp)
    · cases hsp : (searchPlaces s seen usage).result with
      | ok places =>
        simp only [runLoop, if_neg hl, hsp, List.mem_cons] at h
        simp only [runLoop, if_neg hl, hsp, countStarts_cons_cellStart]
        rcases h with h | h
        · exact absurd (congrArg Prod.fst h) (by simp)
        · have := ih _ _ _ _ (i + 1) _ _ k u h
          omega
      | error e =>
        simp only [runLoop, if_neg hl, hsp, List.mem_cons] at h
        simp only [runLoop, if_neg hl, hsp, countStarts_cons_cellStart]
        rcases h with h | h
        · exact absurd (congrArg Prod.fst h) (by simp)
        · have := ih _ _ _ _ (i + 1) _ _ k u h
          omega

/-- A one-page script returning places with ids `a`, `z`, `a`, of which
only the first is fresh with respect to the seen set `["z"]`. -/
def c5script : List PageResponse :=
  [Except.ok ⟨[⟨"a", some "A", none⟩, ⟨"z", some "Z", none⟩, ⟨"a", some "A2", none⟩], none⟩]

/-- Witness for C5: on `c5script` with `seen = ["z"]` the collector
returns exactly the fresh record `a`, whose id was not initially seen and
is seen afterwards. -/
theorem C5_searchPlaces_seen_invariant_witness :
    (searchPlaces c5script ["z"] 5).result = Except.ok [⟨"a", some "A", none⟩] ∧
    (⟨"a", some "A", none⟩ : LeadRecord).place_id ∉ ["z"] ∧
    (⟨"a", some "A", none⟩ : LeadRecord).place_id ∈ (searchPlaces c5script ["z"] 5).seen := by
  have hok : (searchPlaces c5script ["z"] 5).result = Except.ok [⟨"a", some "A", none⟩] := by
    decide
  have T := C5_searchPlaces_seen_invariant c5script ["z"] 5 [⟨"a", some "A", none⟩] hok
  exact ⟨hok, T.1 _ (by simp), T.2.1 _ (by simp)⟩

/-- A scripted environment in which every page fetch of every cell fails
immediately. -/
def emptyEnv : Nat → List PageResponse := fun _ => []

/-- A one-cell script whose first page succeeds with one fresh place and
whose second page fetch fails. -/
def c2script : List PageResponse :=
  [Except.ok ⟨[⟨"a", some "Biz", none⟩], some "t"⟩, Except.error "500"]

theorem searchPlacesGo_usage_mono :
    ∀ (responses : List PageResponse) (seen : List String) (usage : Nat)
      (acc : List LeadRecord) (pn : Nat),
      usage ≤ (searchPlacesGo responses seen usage acc pn).usage := by
  intro responses
  induction responses with
  | nil => intro seen usage acc pn; exact le_refl _
  | cons r rest ih =>
    intro seen usage acc pn
    cases r with
    | error e => simp [searchPlacesGo]
    | ok page =>
      cases htok : page.nextPageToken with
      | some tok =>
        by_cases hcond : tok ≠ "" ∧ pn + 1 < 3
        · simp only [searchPlacesGo, htok, if_pos hcond]
          have := ih (processPlaces page.places seen acc).2 (usage + 1)
            (processPlaces page.places seen acc).1 (pn + 1)
          omega
        · simp only [searchPlacesGo, htok, if_neg hcond]
          omega
      | none =>
        simp only [searchPlacesGo, htok]
        omega

theorem runLoop_events_usage_ge :
    ∀ (scripts : List (List PageResponse)) (limit usage : Nat) (seen comps : List String)
      (i tot new : Nat) (ev : REvent × Nat),
      ev ∈ (runLoop scripts limit usage seen comps i tot new).events → usage ≤ ev.2 := by
  intro scripts
  induction scripts with
  | nil =>
    intro limit usage seen comps i tot new ev h
    simp [runLoop] at h
    rw [h]
  | cons s rest ih =>
    intro limit usage seen comps i tot new ev h
    by_cases hl : limit ≤ usage
    · simp [runLoop, if_pos hl] at h
      rcases h with h | h <;> rw [h]
    · have hmono : usage ≤ (searchPlaces s seen usage).usage :=
        searchPlacesGo_usage_mono s seen usage [] 0
      cases hsp : (searchPlaces s seen usage).result with
      | ok places =>
        simp only [runLoop, if_neg hl, hsp, List.mem_cons] at h
        rcases h with h | h
        · rw [h]
        · exact le_trans hmono (ih _ _ _ _ _ _ _ ev h)
      | error e =>
        simp only [runLoop, if_neg hl, hsp, List.mem_cons] at h
        rcases h with h | h
        · rw [h]
        · exact le_trans hmono (ih _ _ _ _ _ _ _ ev h)

theorem runLoop_events_monotone :
    ∀ (scripts : List (List PageResponse)) (limit usage : Nat) (seen comps : List String)
      (i tot new : Nat),
      ((runLoop scripts limit usage seen comps i tot new).events).Pairwise
        (fun a b => a.2 ≤ b.2) := by
  intro scripts
  induction scripts with
  | nil =>
    intro limit usage seen comps i tot new
    simp [runLoop]
  | cons s rest ih =>
    intro limit usage seen comps i tot new
    by_cases hl : limit ≤ usage
    · simp [runLoop, if_pos hl]
    · have hmono : usage ≤ (searchPlaces s seen usage).usage :=
        searchPlacesGo_usage_mono s seen usage [] 0
      cases hsp : (searchPlaces s seen usage).result with
      | ok places =>
        simp only [runLoop, if_neg hl, hsp]
        refine List.Pairwise.cons ?_ (ih _ _ _ _ _ _ _)
        intro ev hev
        exact le_trans hmono (runLoop_events_usage_ge _ _ _ _ _ _ _ _ ev hev)
      | error e =>
        simp only [runLoop, if_neg hl, hsp]
        refine List.Pairwise.cons ?_ (ih _ _ _ _ _ _ _)
        intro ev hev
        exact le_trans hmono (runLoop_events_usage_ge _ _ _ _ _ _ _ _ ev hev)

/-- C7: throughout a run started under budget, every cell collection is
started only while the usage counter is strictly below the ceiling, and
the usage annotations of the trace are monotone — so once the counter has
reached the ceiling no later cell start can occur; the early-stop report
carries exactly the number of cells that were started before the stop, and
the run always terminates in the `completed` state. -/
theorem C7_runSearch_budget_stop (gridSize : String) (bounds : GeoBounds)
    (env : Nat → List PageResponse) (limit usage0 : Nat) (seen comps : List String)
    (h : usage0 < limit) :
    ∃ o, runSearch gridSize bounds env limit usage0 seen comps = Except.ok o ∧
      (∀ k u, (REvent.cellStart k, u) ∈ o.events → u < limit) ∧
      (∀ k u, (REvent.limitReached k, u) ∈ o.events → k = countStarts o.events) ∧
      o.events.Pairwise (fun a b => a.2 ≤ b.2) ∧
      o.status = "completed" ∧
      (∃ l u, o.events = l ++ [(REvent.completed, u)]) := by
  refine ⟨runLoop ((List.range (generateGrid bounds (gridNum gridSize)).length).map env)
    limit (usage0 + 1) seen comps 0 0 0, ?_, ?_, ?_, ?_, ?_, ?_⟩
  · unfold runSearch
    rw [if_neg (by omega)]
  · intro k u hm
    exact runLoop_cellStart_budget _ _ _ _ _ _ _ _ k u hm
  · intro k u hm
    have := runLoop_limitReached_count _ _ _ _ _ 0 _ _ k u hm
    omega
  · exact runLoop_events_monotone _ _ _ _ _ _ _ _
  · exact (runLoop_completed _ _ _ _ _ _ _ _).2
  · exact (runLoop_completed _ _ _ _ _ _ _ _).1

/-- Witness for C7: a `small` run started with usage 1 under ceiling 2;
the geocoding call exhausts the budget, so the very first cell check stops
the run, which still completes. -/
theorem C7_runSearch_budget_stop_witness :
    1 < 2 ∧
    (∃ o, runSearch "small" ⟨1, 0, 1, 0⟩ emptyEnv 2 1 [] [] = Except.ok o ∧
      (∀ k u, (REvent.cellStart k, u) ∈ o.events → u < 2) ∧
      (∀ k u, (REvent.limitReached k, u) ∈ o.events → k = countStarts o.events) ∧
      o.events.Pairwise (fun a b => a.2 ≤ b.2) ∧
      o.status = "completed" ∧
      (∃ l u, o.events = l ++ [(REvent.completed, u)])) :=
  ⟨by decide, C7_runSearch_budget_stop "small" ⟨1, 0, 1, 0⟩ emptyEnv 2 1 [] [] (by decide)⟩

/-- C2 counterexample: in the scripted cell `c2script` the first page
succeeds — record id `"a"` is collected and enters the seen set — and the
second page fetch fails.  `searchPlaces` then returns the thrown error,
not the partially collected records, and the surrounding run counts zero
results for this cell (while still completing), contradicting the claim
that the cell yields the records of the earlier successful pages. -/
theorem C2_counterexample :
    (searchPlaces c2script [] 0).result = Except.error "500" ∧
    (searchPlaces c2script [] 0).seen = ["a"] ∧
    runLoop [c2script] 10 0 [] [] 0 0 0 =
      { status := "completed", totalResults := 0, newResults := 0,
        events := [(REvent.cellStart 0, 0), (REvent.completed, 2)] } :=
  ⟨by decide, by decide, by decide⟩

/-- C2 (amended): when a page fetch fails partway through a cell,
collection for that cell stops and the cell contributes no records at all
(the partial page results are discarded; only their identifiers stay in
the seen set); the failure does not propagate: the orchestrator proceeds
with the remaining cells unchanged tallies and the run still ends
`completed`. -/
theorem C2_cell_failure_amended (s : List PageResponse) (rest : List (List PageResponse))
    (limit usage : Nat) (seen comps : List String) (i tot new : Nat) (e : String)
    (hu : usage < limit) (he : (searchPlaces s seen usage).result = Except.error e) :
    runLoop (s :: rest) limit usage seen comps i tot new =
      { status := (runLoop rest limit (searchPlaces s seen usage).usage
          (searchPlaces s seen usage).seen comps (i + 1) tot new).status,
        totalResults := (runLoop rest limit (searchPlaces s seen usage).usage
          (searchPlaces s seen usage).seen comps (i + 1) tot new).totalResults,
        newResults := (runLoop rest limit (searchPlaces s seen usage).usage
          (searchPlaces s seen usage).seen comps (i + 1) tot new).newResults,
        events := (REvent.cellStart i, usage) :: (runLoop rest limit
          (searchPlaces s seen usage).usage (searchPlaces s seen usage).seen
          comps (i + 1) tot new).events } ∧
    (runLoop (s :: rest) limit usage seen comps i tot new).status = "completed" := by
  refine ⟨?_, (runLoop_completed (s :: rest) limit usage seen comps i tot new).2⟩
  simp only [runLoop, if_neg (show ¬limit ≤ usage by omega), he]

/-- Witness for C2: the amended failure-isolation theorem applied to the
concrete failing cell `c2script` as the only cell of a run. -/
theorem C2_cell_failure_amended_witness :
    (0 < 10 ∧ (searchPlaces c2script [] 0).result = Except.error "500") ∧
    (runLoop [c2script] 10 0 [] [] 0 0 0).status = "completed" :=
  ⟨⟨by decide, by decide⟩,
    (C2_cell_failure_amended c2script [] 10 0 [] [] 0 0 0 "500" (by decide) (by decide)).2⟩

/-- C3 counterexample: the unsupported granularity string `"gigantic"`
is not rejected: `GRID_SIZES[g] || GRID_SIZES.medium` silently falls back
to the medium granularity 3 and the run proceeds through all nine cells to
completion instead of failing with an error. -/
theorem C3_counterexample :
    gridNum "gigantic" = 3 ∧
    runSearch "gigantic" ⟨1, 0, 1, 0⟩ emptyEnv 100 0 [] [] =
      Except.ok ⟨"completed", 0, 0,
        [(REvent.cellStart 0, 1), (REvent.cellStart 1, 1), (REvent.cellStart 2, 1),
          (REvent.cellStart 3, 1), (REvent.cellStart 4, 1), (REvent.cellStart 5, 1),
          (REvent.cellStart 6, 1), (REvent.cellStart 7, 1), (REvent.cellStart 8, 1),
          (REvent.completed, 1)]⟩ :=
  ⟨by decide, by decide⟩

/-- C3 (amended): an invalid grid granularity is not an input error: any
granularity outside {small, medium, large} silently resolves to the medium
granularity 3, and a run started under budget succeeds (returns an
outcome) rather than failing to the caller. -/
theorem C3_invalid_granularity_amended (g : String)
    (h1 : g ≠ "small") (h2 : g ≠ "medium") (h3 : g ≠ "large") :
    gridNum g = 3 ∧
    (∀ (bounds : GeoBounds) (env : Nat → List PageResponse) (limit usage0 : Nat)
      (seen comps : List String), usage0 < limit →
      ∃ o, runSearch g bounds env limit usage0 seen comps = Except.ok o) := by
  constructor
  · unfold gridNum gridSizes
    rw [if_neg h1, if_neg h2, if_neg h3]
    rfl
  · intro bounds env limit usage0 seen comps hu
    refine ⟨runLoop ((List.range (generateGrid bounds (gridNum g)).length).map env)
      limit (usage0 + 1) seen comps 0 0 0, ?_⟩
    unfold runSearch
    rw [if_neg (by omega)]

/-- Witness for C3: the amended theorem applied to the concrete invalid
granularity `"giant"`. -/
theorem C3_invalid_granularity_amended_witness :
    ("giant" ≠ "small" ∧ "giant" ≠ "medium" ∧ "giant" ≠ "large" ∧ 0 < 1) ∧
    gridNum "giant" = 3 ∧
    (∃ o, runSearch "giant" ⟨1, 0, 1, 0⟩ emptyEnv 1 0 [] [] = Except.ok o) := by
  have T := C3_invalid_granularity_amended "giant" (by decide) (by decide) (by decide)
  exact ⟨⟨by decide, by decide, by decide, by decide⟩, T.1,
    T.2 ⟨1, 0, 1, 0⟩ emptyEnv 1 0 [] [] (by decide)⟩

theorem extractDomain_ne_empty (u : Option String) (d : String)
    (h : extractDomain u = some d) : d ≠ "" := by
  cases u with
  | none => exact absurd h (by simp [extractDomain])
  | some s =>
    simp only [extractDomain] at h
    by_cases hs : s = ""
    · rw [if_pos hs] at h
      exact absurd h (by simp)
    · rw [if_neg hs] at h
      by_cases hd : trimChars (((stripWww (stripScheme s.data)).takeWhile (· ≠ '/')).map jsToLower) = []
      · rw [if_pos hd] at h
        exact absurd h (by simp)
      · rw [if_neg hd] at h
        have : String.mk (trimChars (((stripWww (stripScheme s.data)).takeWhile (· ≠ '/')).map jsToLower)) = d := by
          exact Option.some.inj h
        intro hc
        rw [hc] at this
        exact hd (by simpa [String.ext_iff] using this)

/-- C6: when the lead's site yields a derivable domain present in the
directory index, `checkDuplicate` returns the exact-domain verdict:
`isDupe` true, `matchType` `domain`, confidence exactly 0.95, `matches`
listing every directory contact sharing that domain, each without a fuzzy
score — and the fuzzy step is never executed (the verdict is independent
of the full contact list). -/
theorem C6_checkDuplicate_exact_domain (lead : Lead) (contacts allContacts : List NotionContact)
    (d : String) (hd : extractDomain lead.website = some d)
    (hne : contacts.filter (fun c => strTruthy c.domain && c.domain == some d) ≠ []) :
    checkDuplicate lead (buildDomainIndex contacts) allContacts =
      { isDupe := true, matchType := some "domain",
        «matches» := (contacts.filter (fun c => strTruthy c.domain && c.domain == some d)).map
          (fun c =>
            { pageId := c.pageId, name := c.fullName, email := c.email,
              organizaceUrl := c.organizaceUrl, score := none }),
        confidence := 0.95 } ∧
    (∀ e ∈ (checkDuplicate lead (buildDomainIndex contacts) allContacts).«matches»,
      e.score = none) ∧
    checkDuplicate lead (buildDomainIndex contacts) allContacts =
      checkDuplicate lead (buildDomainIndex contacts) [] := by
  have hd' : d ≠ "" := extractDomain_ne_empty _ _ hd
  have hidx : buildDomainIndex contacts d =
      some (contacts.filter (fun c => strTruthy c.domain && c.domain == some d)) := by
    simp only [buildDomainIndex]
    rw [if_neg hne]
  have hmain : ∀ al : List NotionContact,
      checkDuplicate lead (buildDomainIndex contacts) al =
      { isDupe := true, matchType := some "domain",
        «matches» := (contacts.filter (fun c => strTruthy c.domain && c.domain == some d)).map
          (fun c =>
            { pageId := c.pageId, name := c.fullName, email := c.email,
              organizaceUrl := c.organizaceUrl, score := none }),
        confidence := 0.95 } := by
    intro al
    simp only [checkDuplicate, hd, hidx, if_neg hd']
  refine ⟨hmain allContacts, ?_, (hmain allContacts).trans (hmain []).symm⟩
  intro e he
  rw [hmain allContacts] at he
  simp only [List.mem_map] at he
  obtain ⟨c, _, rfl⟩ := he
  rfl

/-- The directory contact of the spec's worked example: site
`https://widgetco.cz/team`, derived domain `widgetco.cz`. -/
def wcontact : NotionContact :=
  ⟨"p1", "Jana Widget", none, some "https://widgetco.cz/team", some "widgetco.cz"⟩

/-- Witness for C6: the spec's example — a lead with site
`https://www.widgetco.cz` against a directory containing `wcontact`. -/
theorem C6_checkDuplicate_exact_domain_witness :
    (extractDomain (some "https://www.widgetco.cz") = some "widgetco.cz" ∧
      [wcontact].filter (fun c => strTruthy c.domain && c.domain == some "widgetco.cz") ≠ []) ∧
    checkDuplicate ⟨some "WidgetCo", some "https://www.widgetco.cz"⟩
        (buildDomainIndex [wcontact]) [wcontact] =
      { isDupe := true, matchType := some "domain",
        «matches» := ([wcontact].filter
          (fun c => strTruthy c.domain && c.domain == some "widgetco.cz")).map
          (fun c =>
            { pageId := c.pageId, name := c.fullName, email := c.email,
              organizaceUrl := c.organizaceUrl, score := none }),
        confidence := 0.95 } := by
  have T := C6_checkDuplicate_exact_domain ⟨some "WidgetCo", some "https://www.widgetco.cz"⟩
    [wcontact] [wcontact] "widgetco.cz" (by decide) (by decide)
  exact ⟨⟨by decide, by decide⟩, T.1⟩

theorem mem_insertStable (le : NotionContact × ℚ → NotionContact × ℚ → Bool)
    (x y : NotionContact × ℚ) (l : List (NotionContact × ℚ)) :
    y ∈ insertStable le x l ↔ y = x ∨ y ∈ l := by
  induction l with
  | nil => simp [insertStable]
  | cons a as ih =>
    simp only [insertStable]
    by_cases hle : le x a = true
    · rw [if_pos hle]
      simp [List.mem_cons]
    · rw [if_neg hle]
      simp [List.mem_cons, ih]
      tauto

theorem mem_sortDescBy (le : NotionContact × ℚ → NotionContact × ℚ → Bool)
    (l : List (NotionContact × ℚ)) (y : NotionContact × ℚ) :
    y ∈ sortDescBy le l ↔ y ∈ l := by
  induction l with
  | nil => simp [sortDescBy]
  | cons a as ih => simp [sortDescBy, mem_insertStable, ih]

theorem fuzzyCandidate_some (nm : String) (c : NotionContact) (m : NotionContact × ℚ)
    (h : fuzzyCandidate nm c = some m) :
    m.1 = c ∧ ∃ o, orgToken c = some o ∧ o ≠ "" ∧ 3 ≤ o.length ∧
      m.2 = fuzzyMatch nm o ∧ (0.85 : ℚ) ≤ m.2 := by
  unfold fuzzyCandidate at h
  by_cases ht : strTruthy c.organizaceUrl = true
  · rw [if_pos ht] at h
    cases horg : orgToken c with
    | none => simp [horg] at h
    | some o =>
      simp only [horg] at h
      by_cases hlen : o ≠ "" ∧ 3 ≤ o.length
      · rw [if_pos hlen] at h
        by_cases hsc : (0.85 : ℚ) ≤ fuzzyMatch nm o
        · rw [if_pos hsc] at h
          have hm := Option.some.inj h
          refine ⟨by rw [← hm], o, rfl, hlen.1, hlen.2, by rw [← hm], ?_⟩
          rw [← hm]
          exact hsc
        · rw [if_neg hsc] at h
          cases h
      · rw [if_neg hlen] at h
        cases h
  · rw [if_neg ht] at h
    cases h

theorem fuzzyStep_matches_spec (lead : Lead) (allContacts : List NotionContact)
    (e : MatchEntry) (he : e ∈ (fuzzyStep lead allContacts).«matches») :
    ∃ c ∈ allContacts, c.pageId = e.pageId ∧ c.fullName = e.name ∧
      ∃ o, orgToken c = some o ∧ o ≠ "" ∧ 3 ≤ o.length := by
  unfold fuzzyStep at he
  cases hn : lead.name with
  | none =>
    simp only [hn] at he
    simp [baseVerdict] at he
  | some nm =>
    simp only [hn] at he
    by_cases hnm : nm = ""
    · rw [if_pos hnm] at he
      simp [baseVerdict] at he
    · rw [if_neg hnm] at he
      by_cases hempty : allContacts.filterMap (fuzzyCandidate nm) = []
      · rw [if_pos hempty] at he
        simp [baseVerdict] at he
      · rw [if_neg hempty] at he
        simp only [List.mem_map] at he
        obtain ⟨m, hm, rfl⟩ := he
        have hm' : m ∈ sortDescBy scoreGe (allContacts.filterMap (fuzzyCandidate nm)) :=
          List.take_subset _ _ hm
        rw [mem_sortDescBy] at hm'
        rw [List.mem_filterMap] at hm'
        obtain ⟨c, hc, hcand⟩ := hm'
        obtain ⟨hm1, o, horg, ho1, ho2, _, _⟩ := fuzzyCandidate_some nm c m hcand
        exact ⟨c, hc, by rw [hm1], by rw [hm1], o, horg, ho1, ho2⟩

/-- C1 (amended): the fuzzy fallback of `checkDuplicate` skips candidates
whose organization token is shorter than 3 characters (not 5 as claimed:
the source guard is `orgName.length < 3`): every scored entry of a
returned verdict stems from a contact of the directory whose organization
token is non-empty and at least 3 characters long. -/
theorem C1_short_token_skip_amended (lead : Lead) (idx : String → Option (List NotionContact))
    (allContacts : List NotionContact) (e : MatchEntry)
    (he : e ∈ (checkDuplicate lead idx allContacts).«matches») (hs : e.score.isSome) :
    ∃ c ∈ allContacts, c.pageId = e.pageId ∧ c.fullName = e.name ∧
      ∃ o, orgToken c = some o ∧ o ≠ "" ∧ 3 ≤ o.length := by
  unfold checkDuplicate at he
  cases hd : extractDomain lead.website with
  | none =>
    simp only [hd] at he
    exact fuzzyStep_matches_spec lead allContacts e he
  | some ld =>
    simp only [hd] at he
    by_cases hld : ld = ""
    · rw [if_pos hld] at he
      exact fuzzyStep_matches_spec lead allContacts e he
    · rw [if_neg hld] at he
      cases hix : idx ld with
      | none =>
        simp only [hix] at he
        exact fuzzyStep_matches_spec lead allContacts e he
      | some dm =>
        simp only [hix] at he
        simp only [List.mem_map] at he
        obtain ⟨c, _, rfl⟩ := he
        simp at hs

/-- The contact of the C1 counterexample: its site `https://abc.cz`
yields the three-character organization token `abc`. -/
def shortTokContact : NotionContact :=
  ⟨"p1", "Alice Person", none, some "https://abc.cz", some "abc.cz"⟩

/-- The lead of the C1 counterexample: no website, name `abc`. -/
def shortTokLead : Lead := ⟨some "abc", none⟩

theorem shortTok_matches_eval :
    checkDuplicate shortTokLead (buildDomainIndex []) [shortTokContact] =
      { isDupe := true, matchType := some "fuzzy_name",
        «matches» := [⟨"p1", "Alice Person", none, some "https://abc.cz", some 1⟩],
        confidence := 1 } := by
  have hfm : fuzzyMatch "abc" "abc" = 1 := by
    unfold fuzzyMatch fuzzyCore
    rw [if_neg (by simp), if_pos rfl]
  have hcand : fuzzyCandidate "abc" shortTokContact = some (shortTokContact, 1) := by
    unfold fuzzyCandidate
    rw [if_pos (by decide : strTruthy shortTokContact.organizaceUrl = true),
      show orgToken shortTokContact = some "abc" from by decide]
    simp only [hfm]
    rw [if_pos (by decide : ("abc" : String) ≠ "" ∧ 3 ≤ ("abc" : String).length),
      if_pos (by norm_num : (0.85 : ℚ) ≤ 1)]
  have hlist : [shortTokContact].filterMap (fuzzyCandidate "abc") = [(shortTokContact, 1)] := by
    simp [List.filterMap_cons, hcand]
  have hw : extractDomain shortTokLead.website = none := by decide
  unfold checkDuplicate
  simp only [hw]
  unfold fuzzyStep
  simp only [show shortTokLead.name = some "abc" from rfl]
  rw [if_neg (by decide : ¬("abc" : String) = "")]
  simp only [hlist]
  rw [if_neg (by decide : ¬([(shortTokContact, (1 : ℚ))] = []))]
  simp [sortDescBy, insertStable, shortTokContact]

/-- C1 counterexample: the directory contact `shortTokContact` has the
3-character organization token `abc` (shorter than 5 under any reading),
yet for the lead named `abc` it appears in the returned fuzzy matches with
score 1 — candidates with tokens of length 3 and 4 are not skipped. -/
theorem C1_counterexample :
    orgToken shortTokContact = some "abc" ∧ ("abc" : String).length < 5 ∧
    (checkDuplicate shortTokLead (buildDomainIndex []) [shortTokContact]).«matches» =
      [⟨"p1", "Alice Person", none, some "https://abc.cz", some 1⟩] ∧
    (checkDuplicate shortTokLead (buildDomainIndex []) [shortTokContact]).isDupe = true := by
  refine ⟨by decide, by decide, ?_, ?_⟩ <;> rw [shortTok_matches_eval]

/-- Witness for the amended C1: the scored entry of the counterexample
verdict indeed stems from a directory contact with a token of length ≥ 3. -/
theorem C1_short_token_skip_amended_witness :
    ((⟨"p1", "Alice Person", none, some "https://abc.cz", some 1⟩ : MatchEntry) ∈
        (checkDuplicate shortTokLead (buildDomainIndex []) [shortTokContact]).«matches» ∧
      (some (1 : ℚ)).isSome) ∧
    (∃ c ∈ [shortTokContact], c.pageId = "p1" ∧ c.fullName = "Alice Person" ∧
      ∃ o, orgToken c = some o ∧ o ≠ "" ∧ 3 ≤ o.length) := by
  have hm : (⟨"p1", "Alice Person", none, some "https://abc.cz", some 1⟩ : MatchEntry) ∈
      (checkDuplicate shortTokLead (buildDomainIndex []) [shortTokContact]).«matches» := by
    rw [shortTok_matches_eval]
    exact List.mem_singleton.mpr rfl
  have T := C1_short_token_skip_amended shortTokLead (buildDomainIndex []) [shortTokContact]
    _ hm rfl
  exact ⟨⟨hm, rfl⟩, T⟩

/-- A raw scraped candidate carrying an explicit confidence of 0. -/
def zeroConfRaw : RawContact :=
  ⟨none, none, none, none, none, none, none, none, none, some 0⟩

/-- C9 counterexample: a scraped candidate that provides the explicit
confidence 0 is normalized to confidence 50 — the falsy-default
`contact.confidence || 50` overwrites a provided 0, so 50 does not appear
only when the source provides no confidence. -/
theorem C9_counterexample :
    zeroConfRaw.confidence = some 0 ∧
    confOf (normalizeContact "web_scrape" zeroConfRaw) = some 50 ∧
    (50 : Nat) ≠ 0 :=
  ⟨rfl, by decide, by decide⟩

/-- C9 (amended): for scraped candidates the normalized confidence equals
the provided confidence when it is nonzero and defaults to 50 when the
source provides none or an explicit 0 (JavaScript falsiness); for Hunter
candidates a provided confidence passes through unchanged — an explicit 0
is preserved because the fallback is itself 0 — and an absent one becomes
0. -/
theorem C9_confidence_amended (c : RawContact) :
    confOf (normalizeContact "web_scrape" c) =
      some (match c.confidence with
        | some v => if v = 0 then 50 else v
        | none => 50) ∧
    confOf (normalizeContact "hunter" c) =
      some (match c.confidence with
        | some v => v
        | none => 0) := by
  constructor
  · show some (jsOrNat c.confidence 50) = _
    unfold jsOrNat
    cases c.confidence with
    | none => rfl
    | some v => rfl
  · show some (jsOrNat c.confidence 0) = _
    unfold jsOrNat
    cases c.confidence with
    | none => rfl
    | some v =>
      by_cases hv : v = 0
      · subst hv
        rfl
      · simp [hv]

end LeadScraper
